import Mathlib

/-!
Shallow embedding of the libaccl pattern core
(src/CXX/libaccl/pattern/points.hxx and src/CXX/libaccl/pattern/hypersphere.hxx)
and proofs about the specification claims.

Conventions of the embedding:
* the C++ template parameter Base_t (an integral type) is modelled as Int,
  the unsigned payload as Nat, a point (std::vector of Base_t) as List Int;
* the point store (std::map keyed by point) is modelled as an association
  list with insert-only-if-absent semantics; no theorem below depends on
  the iteration order, only on the key-payload association;
* every C++ loop is modelled by structural recursion on an explicit fuel
  argument whose initial value is exactly the number of iterations the loop
  performs (the enclosing comments justify each bound), so all definitions
  are executable and kernel-reducible;
* the base case of hypersphere::octant reads layers[layer + 1] while
  layer may equal layers.size() - 1, i.e. it can read one past the end of
  the vector.  The main model makes that single out-of-bounds read return
  an oracle value g (a parameter), which is what an actual C++ execution
  would obtain from adjacent memory; a second, fully index-checked model
  (the Chk functions, returning Except) reports the access instead.
-/

namespace Libaccl

/-- Point coordinates: an N-dimensional vector of the base integral type. -/
abbrev Point := List Int

/-- The point store: association list from Point to the unsigned payload.
This models the std::map member m_impl of class points. -/
abbrev Store := List (Point × Nat)

/-- Membership of a point in the store (the C++ operator and, via map::find). -/
def pmem (s : Store) (p : Point) : Bool :=
  s.any (fun e => e.1 == p)

/-- points::set: add the association unless the point already exists
(std::map::emplace does not overwrite an existing key). -/
def pset (s : Store) (p : Point) (v : Nat) : Store :=
  if pmem s p then s else (p, v) :: s

/-- Payload lookup (map::find followed by dereference). -/
def lookup (s : Store) (p : Point) : Option Nat :=
  (s.find? (fun e => e.1 == p)).map (fun e => e.2)

/-- The C++ membership test operator. -/
def contains (s : Store) (p : Point) : Bool :=
  (lookup s p).isSome

/-- points::size. -/
def psize (s : Store) : Nat := s.length

/-- The typed failure of points::get_payload (the thrown runtime_error). -/
inductive LookupErr where
  | notFound
deriving DecidableEq, Repr

/-- points::get_payload: payload of an existing point, error when absent. -/
def get_payload (s : Store) (p : Point) : Except LookupErr Nat :=
  match lookup s p with
  | some v => Except.ok v
  | none => Except.error LookupErr.notFound

/-!  The layer-advance loop of the octant base case:

    while (layer < layers.size())
        if (radius <= layers[layer + 1]) layer++;
        else break;

The loop runs at most layers.length - layer times (layer strictly increases,
the guard stops it at layers.size()), which is the fuel.  When
layer = layers.size() - 1 the C++ expression layers[layer + 1] reads one
element past the end of the vector; the oracle g stands for the value that
read returns. -/

/-- Layer-advance loop body, fuel = layers.length - layer at entry. -/
def advLayerGo (g : Int) (layers : List Int) (radius : Int) :
    Nat → Nat → Nat
  | 0, layer => layer
  | rem + 1, layer =>
    if layer < layers.length then
      if radius ≤ layers.getD (layer + 1) g then
        advLayerGo g layers radius rem (layer + 1)
      else layer
    else layer

/-- The layer-advance loop with its exact fuel. -/
def advLayer (g : Int) (layers : List Int) (radius : Int) (layer : Nat) : Nat :=
  advLayerGo g layers radius (layers.length - layer) layer

/-!  The 1-D base case of hypersphere::octant:

    auto     point  = centre;
    unsigned layer  = 0;
    Base_t   radius = layers[layer];
    point[d] += radius;
    while (radius > layers[layers.size() - 1]) {
        this->set(point, layer);
        --point[d];
        --radius;
        <layer-advance loop>
    }
    if (layer) --layer;
    this->set(point, layer);  // stopper layer

The loop decrements radius by one per iteration and stops as soon as
radius <= innermost, so it runs exactly (radius - innermost).toNat times,
which is the fuel.  We record the emitted (point, payload) pairs in order;
base1d folds them into the store with pset. -/

/-- Base-case emission loop, fuel = (radius - innermost).toNat at entry.
The final element is the stopper point with payload (layer - 1 in Nat,
mirroring the unsigned "if (layer) --layer"). -/
def base1dGo (g : Int) (layers : List Int) (d : Nat) :
    Nat → Point → Int → Nat → List (Point × Nat)
  | 0, pt, _, layer => [(pt, layer - 1)]
  | fuel + 1, pt, radius, layer =>
    if radius > layers.getLastD 0 then
      (pt, layer) ::
        base1dGo g layers d fuel (pt.set d (pt.getD d 0 - 1)) (radius - 1)
          (advLayer g layers (radius - 1) layer)
    else [(pt, layer - 1)]

/-- Points and payloads emitted by the base case of octant, in order. -/
def base1dEmit (g : Int) (centre : Point) (layers : List Int) (d : Nat) :
    List (Point × Nat) :=
  let radius := layers.headD 0
  let pt := centre.set d (centre.getD d 0 + radius)
  base1dGo g layers d (radius - layers.getLastD 0).toNat pt radius 0

/-- The base case of octant: fold the emissions into the store. -/
def base1d (g : Int) (centre : Point) (layers : List Int) (d : Nat)
    (s : Store) : Store :=
  (base1dEmit g centre layers d).foldl (fun a e => pset a e.1 e.2) s

/-!  The per-offset radius/criterion update loop of the slicing step:

    for (size_t i = 0; i < radii.size(); ++i) {
        Base_t delta = radii[i] - d_diff;
        if (delta <= 0) {
            if (0 < i && radii[i] + 1 <= radii[i - 1]) {
                if (delta) ++radii[i];
                ++i;
            }
            for (; i < radii.size(); radii.pop_back());
            break;
        }
        Base_t chi = d_diff;
        if (criteria[i] > 0) chi -= --radii[i];
        chi <<= 2;
        criteria[i] += chi + 1;
    }

i increases by one per iteration and the vectors only shrink on the final
(break) iteration, so the loop runs at most radii.length - i times: fuel.
chi <<= 2 is modelled as multiplication by 4.  The pop_back loop truncates
radii to length i (after the optional ++i). -/

/-- Update loop body, fuel = radii.length - i at entry. -/
def updGo (dd : Int) : Nat → List Int → List Int → Nat → List Int × List Int
  | 0, radii, criteria, _ => (radii, criteria)
  | fuel + 1, radii, criteria, i =>
    if i < radii.length then
      if radii.getD i 0 - dd ≤ 0 then
        if 0 < i ∧ radii.getD i 0 + 1 ≤ radii.getD (i - 1) 0 then
          ((if radii.getD i 0 - dd ≠ 0 then
              radii.set i (radii.getD i 0 + 1)
            else radii).take (i + 1), criteria)
        else (radii.take i, criteria)
      else
        if criteria.getD i 0 > 0 then
          updGo dd fuel (radii.set i (radii.getD i 0 - 1))
            (criteria.set i
              (criteria.getD i 0 + 4 * (dd - (radii.getD i 0 - 1)) + 1))
            (i + 1)
        else
          updGo dd fuel radii
            (criteria.set i (criteria.getD i 0 + 4 * dd + 1)) (i + 1)
  else (radii, criteria)

/-- The update loop with its exact fuel. -/
def updLoop (dd : Int) (radii criteria : List Int) : List Int × List Int :=
  updGo dd radii.length radii criteria 0

/-!  The slicing loop of octant:

    while (!radii.empty()) {
        slice_centre[d] = centre[d] + d_diff;
        octant(slice_centre, radii, d + 1);
        ++d_diff;
        <update loop>
    }

d_diff increases by one per iteration, radii.front() never increases, and
the update loop empties radii as soon as radii.front() <= d_diff, so the
loop runs at most (radii.front()).toNat + 1 times; fuel
(radii.front()).toNat + 2 covers the final empty check (theorem
c10_construction_total below proves this fuel is never exhausted).  The
recursive octant call is passed in as rec. -/

/-- Slicing loop with explicit fuel; none signals fuel exhaustion. -/
def sliceLoop (rec : Point → List Int → Nat → Store → Option Store)
    (centre : Point) (d : Nat) :
    Nat → Int → List Int → List Int → Store → Option Store
  | 0, _, _, _, _ => none
  | fuel + 1, dd, radii, criteria, s =>
    if radii.isEmpty then some s
    else
      match rec (centre.set d (centre.getD d 0 + dd)) radii (d + 1) s with
      | none => none
      | some s2 =>
        let rc := updLoop (dd + 1) radii criteria
        sliceLoop rec centre d fuel (dd + 1) rc.1 rc.2 s2

/-- hypersphere::octant, by recursion on the number of remaining axes
(n = centre.length - d; hypersphere passes n = dimension).  The two
asserts (d < centre.size(), 0 < layers.size()) are modelled by the
enclosing guard: none models a failed assertion or fuel exhaustion. -/
def octant (g : Int) : Nat → Point → List Int → Nat → Store → Option Store
  | 0, _, _, _, _ => none
  | n + 1, centre, layers, d, s =>
    if d < centre.length ∧ 0 < layers.length then
      if centre.length - 1 = d then some (base1d g centre layers d s)
      else
        sliceLoop (octant g n) centre d ((layers.headD 0).toNat + 2) 0 layers
          (layers.map (fun r => 1 - r)) s
    else none

/-- One reflection pass of hypersphere::symmetry: iterate over a snapshot
of the store (the C++ const set_t points(*this) copy) and insert the
reflection of every snapshot entry satisfying the guard, starting from the
snapshot itself. -/
def reflectPass (guard : Point × Nat → Bool) (refl : Point × Nat → Point)
    (s : Store) : Store :=
  s.foldl (fun a x => if guard x then pset a (refl x) x.2 else a) s

/-- Coordinate swap used by the diagonal symmetry pass. -/
def swapAxes (p : Point) (i j : Nat) : Point :=
  (p.set i (p.getD j 0)).set j (p.getD i 0)

/-- Diagonal symmetry pass for axis d (with b = (d + 1) % dimension). -/
def diagPass (dim d : Nat) (s : Store) : Store :=
  reflectPass
    (fun x => x.1.getD d 0 != x.1.getD ((d + 1) % dim) 0)
    (fun x => swapAxes x.1 d ((d + 1) % dim)) s

/-- Axial symmetry pass for axis d. -/
def axialPass (d : Nat) (s : Store) : Store :=
  reflectPass
    (fun x => x.1.getD d 0 != 0)
    (fun x => x.1.set d (-(x.1.getD d 0))) s

/-- hypersphere::symmetry: all diagonal passes, then all axial passes. -/
def symmetry (dim : Nat) (s : Store) : Store :=
  (List.range dim).foldl (fun t d => axialPass d t)
    ((List.range dim).foldl (fun t d => diagPass dim d t) s)

/-- The hypersphere constructor: assert 0 < dimension, compute the first
hyperoctant from the zero centre, then complete by symmetry. -/
def hypersphere (g : Int) (dim : Nat) (layers : List Int) : Option Store :=
  if 0 < dim then
    (octant g dim (List.replicate dim 0) layers 0 []).map (symmetry dim)
  else none

/-!  The index-checked embedding: identical control flow, but every vector
subscript performed by the base case (on layers) and by the update loop of
the slicing step (on radii and criteria) is a checked access; an
out-of-range subscript yields the error oob instead of an oracle value.
Failed assertions and fuel exhaustion are reported separately so that oob
can only mean an out-of-range vector subscript. -/

/-- Failure modes of the checked embedding. -/
inductive CFail where
  | oob
  | assertFail
  | fuelOut
deriving DecidableEq, Repr

/-- Checked layer-advance loop (reads layers[layer + 1]). -/
def advChkGo (layers : List Int) (radius : Int) :
    Nat → Nat → Except CFail Nat
  | 0, layer => Except.ok layer
  | rem + 1, layer =>
    if layer < layers.length then
      match layers.get? (layer + 1) with
      | none => Except.error CFail.oob
      | some nxt =>
        if radius ≤ nxt then advChkGo layers radius rem (layer + 1)
        else Except.ok layer
    else Except.ok layer

/-- Checked layer-advance loop with its exact fuel. -/
def advLayerChk (layers : List Int) (radius : Int) (layer : Nat) :
    Except CFail Nat :=
  advChkGo layers radius (layers.length - layer) layer

/-- Checked base-case emission loop (reads layers[layers.size() - 1]). -/
def base1dChkGo (layers : List Int) (d : Nat) :
    Nat → Point → Int → Nat → Except CFail (List (Point × Nat))
  | 0, pt, _, layer => Except.ok [(pt, layer - 1)]
  | fuel + 1, pt, radius, layer =>
    match layers.get? (layers.length - 1) with
    | none => Except.error CFail.oob
    | some innermost =>
      if radius > innermost then
        match advLayerChk layers (radius - 1) layer with
        | Except.error e => Except.error e
        | Except.ok layer2 =>
          (base1dChkGo layers d fuel (pt.set d (pt.getD d 0 - 1))
              (radius - 1) layer2).map
            (fun rest => (pt, layer) :: rest)
      else Except.ok [(pt, layer - 1)]

/-- Checked base case of octant (reads layers[0]). -/
def base1dChk (centre : Point) (layers : List Int) (d : Nat) (s : Store) :
    Except CFail Store :=
  match layers.get? 0 with
  | none => Except.error CFail.oob
  | some radius =>
    match layers.get? (layers.length - 1) with
    | none => Except.error CFail.oob
    | some innermost =>
      (base1dChkGo layers d (radius - innermost).toNat
          (centre.set d (centre.getD d 0 + radius)) radius 0).map
        (fun es => es.foldl (fun a e => pset a e.1 e.2) s)

/-- Checked update loop (reads radii[i], radii[i - 1], criteria[i]). -/
def updChkGo (dd : Int) :
    Nat → List Int → List Int → Nat → Except CFail (List Int × List Int)
  | 0, radii, criteria, _ => Except.ok (radii, criteria)
  | fuel + 1, radii, criteria, i =>
    if i < radii.length then
      match radii.get? i, criteria.get? i with
      | some ri, some ci =>
        if ri - dd ≤ 0 then
          if 0 < i then
            match radii.get? (i - 1) with
            | none => Except.error CFail.oob
            | some rp =>
              if ri + 1 ≤ rp then
                Except.ok
                  ((if ri - dd ≠ 0 then radii.set i (ri + 1)
                    else radii).take (i + 1), criteria)
              else Except.ok (radii.take i, criteria)
          else Except.ok (radii.take i, criteria)
        else
          if ci > 0 then
            updChkGo dd fuel (radii.set i (ri - 1))
              (criteria.set i (ci + 4 * (dd - (ri - 1)) + 1)) (i + 1)
          else
            updChkGo dd fuel radii (criteria.set i (ci + 4 * dd + 1)) (i + 1)
      | _, _ => Except.error CFail.oob
    else Except.ok (radii, criteria)

/-- Checked slicing loop. -/
def sliceLoopChk (rec : Point → List Int → Nat → Store → Except CFail Store)
    (centre : Point) (d : Nat) :
    Nat → Int → List Int → List Int → Store → Except CFail Store
  | 0, _, _, _, _ => Except.error CFail.fuelOut
  | fuel + 1, dd, radii, criteria, s =>
    if radii.isEmpty then Except.ok s
    else
      match rec (centre.set d (centre.getD d 0 + dd)) radii (d + 1) s with
      | Except.error e => Except.error e
      | Except.ok s2 =>
        match updChkGo (dd + 1) radii.length radii criteria 0 with
        | Except.error e => Except.error e
        | Except.ok rc => sliceLoopChk rec centre d fuel (dd + 1) rc.1 rc.2 s2

/-- Checked hypersphere::octant. -/
def octantChk : Nat → Point → List Int → Nat → Store → Except CFail Store
  | 0, _, _, _, _ => Except.error CFail.fuelOut
  | n + 1, centre, layers, d, s =>
    if d < centre.length ∧ 0 < layers.length then
      if centre.length - 1 = d then base1dChk centre layers d s
      else
        sliceLoopChk (octantChk n) centre d ((layers.headD 0).toNat + 2) 0
          layers (layers.map (fun r => 1 - r)) s
    else Except.error CFail.assertFail

/-- Checked hypersphere constructor (symmetry performs no subscripts that
can go out of range, so it is shared with the main model). -/
def hypersphereChk (dim : Nat) (layers : List Int) : Except CFail Store :=
  if 0 < dim then
    (octantChk dim (List.replicate dim 0) layers 0 []).map (symmetry dim)
  else Except.error CFail.assertFail

/-!  Definitions written from the words of the specification (not from the
source), used to compare the specified and the computed behaviour. -/

/-- Decidable extensional equality of stores as key-payload maps:
every association of each store is present in the other. -/
def storeEqvB (s t : Store) : Bool :=
  s.all (fun e => lookup t e.1 == some e.2) &&
    t.all (fun e => lookup s e.1 == some e.2)

/-- Modelled from the spec: the exact result the specification claims for
dimension 1, layers [3, 0], namely the associations -3 and 3 to 0 and the
centre 0 to 1. -/
def specC2Map : Store := [([-3], 0), ([3], 0), ([0], 1)]

/-- Modelled from the spec: the points the specification claims for
dimension 2, layers [5]: (5,0), (4,3), (3,4), (0,5) and their 8-way
reflections (coordinate swaps and sign flips). -/
def specC4Pts : List Point :=
  [[5, 0], [0, 5], [-5, 0], [0, -5],
   [4, 3], [3, 4], [-4, 3], [-3, 4], [4, -3], [3, -4], [-4, -3], [-3, -4]]

/-- The 28 associations the embedded code computes for dimension 2,
layers [5] (all payloads 0). -/
def c4Computed : Store :=
  [([0, 5], 0), ([1, 5], 0), ([2, 4], 0), ([3, 4], 0),
   ([5, 0], 0), ([5, 1], 0), ([4, 2], 0), ([4, 3], 0),
   ([-1, 5], 0), ([-2, 4], 0), ([-3, 4], 0), ([-5, 0], 0),
   ([-5, 1], 0), ([-4, 2], 0), ([-4, 3], 0),
   ([0, -5], 0), ([1, -5], 0), ([2, -4], 0), ([3, -4], 0),
   ([5, -1], 0), ([4, -2], 0), ([4, -3], 0),
   ([-1, -5], 0), ([-2, -4], 0), ([-3, -4], 0),
   ([-5, -1], 0), ([-4, -2], 0), ([-4, -3], 0)]

/-- The seven associations the embedded code computes for dimension 1,
layers [3, 0], when the out-of-bounds read returns a value that is at
least the innermost radius (here: at least 0). -/
def c2ComputedHigh : Store :=
  [([-3], 0), ([-2], 0), ([-1], 0), ([0], 1), ([1], 0), ([2], 0), ([3], 0)]

/-- The seven associations the embedded code computes for dimension 1,
layers [3, 0], when the out-of-bounds read returns a value below the
innermost radius (here: below 0). -/
def c2ComputedLow : Store :=
  [([-3], 0), ([-2], 0), ([-1], 0), ([0], 0), ([1], 0), ([2], 0), ([3], 0)]

end Libaccl

namespace Libaccl

/-- C1: the specification claims that under the precondition (dimension at
least 1, non-empty non-increasing non-negative layers) every vector
subscript of the base case and of the slicing loop stays in bounds, so the
error branch of the checked embedding is unreachable.  It is reachable:
for dimension 1 and layers [3, 0] (which satisfy the precondition) the
layer-advance loop of the base case evaluates the subscript
layers[layer + 1] with layer + 1 = layers.size(), and the checked
embedding reports exactly that out-of-range access. -/
theorem c1_base_case_reads_out_of_bounds :
    hypersphereChk 1 [3, 0] = Except.error CFail.oob := by
  rfl

/-- C2 counterexample: constructing with dimension 1 and layers [3, 0]
does not produce exactly the three claimed associations; already the
determined part of the run (independent of the out-of-bounds read, here
resolved to 0) contains the point 1 with payload 0, which the claimed map
does not contain. -/
theorem c2_claimed_map_wrong :
    storeEqvB ((hypersphere 0 1 [3, 0]).getD []) specC2Map = false ∧
      lookup ((hypersphere 0 1 [3, 0]).getD []) [1] = some 0 := by
  constructor
  · rfl
  · rfl

/-- C2 amended: dimension 1 with layers [3, 0] yields exactly the seven
points -3..3; the non-centre points carry payload 0 (the base case fills
every integer position from the outer radius down to the innermost radius,
not only the two extreme points), and the payload of the centre 0 depends
on the out-of-bounds read: 1 when the read value is at least the innermost
radius (oracle 0 here), 0 otherwise (oracle -1 here). -/
theorem c2_seven_points :
    storeEqvB ((hypersphere 0 1 [3, 0]).getD []) c2ComputedHigh = true ∧
      storeEqvB ((hypersphere (-1) 1 [3, 0]).getD []) c2ComputedLow = true := by
  constructor
  · rfl
  · rfl

/-- C4 counterexample: the dimension 2, layers [5] construction stores the
point (1, 5), which is not among the four claimed points and their 8-way
reflections, so the set is not exactly the claimed one. -/
theorem c4_extra_point_stored :
    contains ((hypersphere 0 2 [5]).getD []) [1, 5] = true ∧
      specC4Pts.contains [1, 5] = false := by
  constructor
  · rfl
  · rfl

/-- C4 amended: dimension 2 with layers [5] yields exactly 28 associations,
all with payload 0: the four claimed points with their 8-way reflections,
plus (1,5), (2,4), (5,1), (4,2) and their reflections; in particular
(4,4) is absent and the disk is not filled. -/
theorem c4_exact_point_set :
    storeEqvB ((hypersphere 0 2 [5]).getD []) c4Computed = true ∧
      contains ((hypersphere 0 2 [5]).getD []) [4, 4] = false := by
  constructor
  · rfl
  · rfl

/-- C5: the specification claims closure of the stored set under all
coordinate permutations combined with sign flips.  For dimension 4 and
layers [1] the construction stores (0,0,0,1) but not its permutation
(0,1,0,0): the single sweep of adjacent-axis diagonal passes
(0,1), (1,2), (2,3), (3,0) cannot produce every permutation, so the
generated set is not even the full radius-1 hypersphere. -/
theorem c5_missing_permutation :
    contains ((hypersphere 0 4 [1]).getD []) [0, 0, 0, 1] = true ∧
      contains ((hypersphere 0 4 [1]).getD []) [0, 1, 0, 0] = false := by
  constructor
  · rfl
  · rfl

/-- C8 counterexample: a non-monotonic (not non-increasing) layers list is
not refused: dimension 1 with layers [1, 3] constructs an instance (the
code contains no monotonicity check). -/
theorem c8_nonmonotonic_list_accepted :
    (hypersphere 0 1 [1, 3]).isSome = true := by
  rfl

/-- Auxiliary: lookup succeeds exactly on stored points. -/
theorem lookup_isSome_eq_pmem (s : Store) (p : Point) :
    (lookup s p).isSome = pmem s p := by
  induction s with
  | nil => rfl
  | cons e t ih =>
    cases h : (e.1 == p) with
    | false =>
      have h1 : lookup (e :: t) p = lookup t p := by
        simp [lookup, List.find?_cons_of_neg, h]
      have h2 : pmem (e :: t) p = pmem t p := by
        simp [pmem, List.any_cons, h]
      rw [h1, h2, ih]
    | true =>
      have h1 : lookup (e :: t) p = some e.2 := by
        simp [lookup, List.find?_cons_of_pos, h]
      have h2 : pmem (e :: t) p = true := by
        simp [pmem, List.any_cons, h]
      rw [h1, h2]
      rfl

/-- Auxiliary: inserting an already present point is the identity. -/
theorem pset_of_pmem (s : Store) (p : Point) (v : Nat)
    (h : pmem s p = true) : pset s p v = s := by
  rw [pset, if_pos h]

/-- Auxiliary: after an insertion the point is present. -/
theorem pmem_pset_self (s : Store) (p : Point) (v : Nat) :
    pmem (pset s p v) p = true := by
  by_cases h : pmem s p = true
  · rw [pset, if_pos h]
    exact h
  · rw [pset, if_neg h]
    simp [pmem, List.any_cons]

/-- Auxiliary: membership after an insertion. -/
theorem pmem_pset_iff (s : Store) (p q : Point) (v : Nat) :
    pmem (pset s q v) p = true ↔ pmem s p = true ∨ q = p := by
  by_cases h : pmem s q = true
  · rw [pset, if_pos h]
    constructor
    · exact fun hp => Or.inl hp
    · rintro (hp | rfl)
      · exact hp
      · exact h
  · rw [pset, if_neg h]
    simp only [pmem, List.any_cons, Bool.or_eq_true, beq_iff_eq]
    exact or_comm

/-- Auxiliary: a fresh insertion records its payload. -/
theorem lookup_pset_new (s : Store) (p : Point) (v : Nat)
    (h : pmem s p = false) : lookup (pset s p v) p = some v := by
  have h2 : ¬ pmem s p = true := by simp [h]
  rw [pset, if_neg h2]
  simp [lookup, List.find?_cons_of_pos]

/-- Auxiliary: every stored entry is found by pmem. -/
theorem pmem_of_mem (s : Store) (e : Point × Nat) (h : e ∈ s) :
    pmem s e.1 = true := by
  simp only [pmem, List.any_eq_true, beq_iff_eq]
  exact ⟨e, h, rfl⟩

/-- C3 counterexample: when the point is already present, the payload left
after inserting (p, v1) and then (p, v2) is the pre-existing one, not v1:
starting from a store holding the point 0 with payload 7, both insertions
are no-ops and the recorded payload stays 7. -/
theorem c3_preexisting_payload_kept :
    lookup (pset (pset [([0], 7)] [0] 1) [0] 2) [0] = some 7 ∧
      (some 7 : Option Nat) ≠ some 1 := by
  constructor
  · rfl
  · decide

/-- C3 amended: inserting (p, v1) and then (p, v2) leaves the store with
the payload of the first successful insertion recorded for p: v1 when p
was absent before, the pre-existing payload otherwise; the second
insertion is a no-op in every case (it changes neither the stored
associations nor the size, and raises no error). -/
theorem c3_first_write_wins :
    ∀ (s : Store) (p : Point) (v1 v2 : Nat),
      pset (pset s p v1) p v2 = pset s p v1 ∧
        psize (pset (pset s p v1) p v2) = psize (pset s p v1) ∧
        (pmem s p = false → lookup (pset s p v1) p = some v1) := by
  intro s p v1 v2
  have hid : pset (pset s p v1) p v2 = pset s p v1 :=
    pset_of_pmem _ _ _ (pmem_pset_self s p v1)
  exact ⟨hid, by rw [hid], fun h => lookup_pset_new s p v1 h⟩

/-- C3 witness: the amended statement evaluated at the empty store, the
point 0 and the payloads 1 and 2, with the freshness hypothesis
discharged concretely. -/
theorem c3_first_write_wins_witness :
    pset (pset [] [0] 1) [0] 2 = pset [] [0] 1 ∧
      psize (pset (pset [] [0] 1) [0] 2) = psize (pset [] [0] 1) ∧
      lookup (pset [] [0] 1) [0] = some 1 := by
  have h := c3_first_write_wins [] [0] 1 2
  exact ⟨h.1, h.2.1, h.2.2 (by rfl)⟩

/-- C6: get_payload fails with notFound exactly when the point is absent,
returns exactly the stored payload otherwise, and every entry reachable by
iterating the store satisfies the round trip: it is contained and its
payload lookup succeeds. -/
theorem c6_get_payload_spec :
    ∀ (s : Store) (p : Point),
      (get_payload s p = Except.error LookupErr.notFound ↔
        contains s p = false) ∧
        (∀ v : Nat, get_payload s p = Except.ok v ↔ lookup s p = some v) ∧
        (∀ e : Point × Nat, e ∈ s →
          contains s e.1 = true ∧ ∃ v, get_payload s e.1 = Except.ok v) := by
  intro s p
  refine ⟨?_, ?_, ?_⟩
  · cases h : lookup s p with
    | none => simp [get_payload, contains, h]
    | some v => simp [get_payload, contains, h]
  · intro v
    cases h : lookup s p with
    | none => simp [get_payload, h]
    | some w => simp [get_payload, h]
  · intro e he
    have hm : pmem s e.1 = true := pmem_of_mem s e he
    have hc : contains s e.1 = true := by
      rw [contains, lookup_isSome_eq_pmem]; exact hm
    refine ⟨hc, ?_⟩
    cases h : lookup s e.1 with
    | none =>
      rw [contains, h] at hc
      cases hc
    | some v => exact ⟨v, by simp [get_payload, h]⟩

/-- C6 witness: the statement evaluated on the concrete one-entry store
holding the point 5 with payload 3, discharging the membership hypothesis
at that entry. -/
theorem c6_get_payload_spec_witness :
    (get_payload [([5], 3)] [4] = Except.error LookupErr.notFound ↔
      contains [([5], 3)] [4] = false) ∧
      contains [([5], 3)] [5] = true ∧
      ∃ v, get_payload [([5], 3)] [5] = Except.ok v := by
  have h := c6_get_payload_spec [([5], 3)] [4]
  exact ⟨h.1, h.2.2 ([5], 3) (by simp)⟩

/-- Auxiliary: a reflection pass folded over a snapshot list contains
exactly the accumulator points and the guarded reflections of snapshot
entries. -/
theorem pmem_reflect_foldl (guard : Point × Nat → Bool)
    (refl : Point × Nat → Point) :
    ∀ (L : List (Point × Nat)) (a : Store) (p : Point),
      pmem (L.foldl
          (fun acc x => if guard x then pset acc (refl x) x.2 else acc) a)
          p = true ↔
        pmem a p = true ∨ ∃ x, x ∈ L ∧ guard x = true ∧ refl x = p := by
  intro L
  induction L with
  | nil => simp
  | cons y t ih =>
    intro a p
    rw [List.foldl_cons, ih]
    by_cases hg : guard y = true
    · rw [if_pos hg, pmem_pset_iff]
      constructor
      · rintro ((hp | rfl) | ⟨x, hx, hgx, hrx⟩)
        · exact Or.inl hp
        · exact Or.inr ⟨y, List.mem_cons_self y t, hg, rfl⟩
        · exact Or.inr ⟨x, List.mem_cons_of_mem y hx, hgx, hrx⟩
      · rintro (hp | ⟨x, hx, hgx, hrx⟩)
        · exact Or.inl (Or.inl hp)
        · rcases List.mem_cons.mp hx with rfl | hxt
          · exact Or.inl (Or.inr hrx)
          · exact Or.inr ⟨x, hxt, hgx, hrx⟩
    · rw [if_neg hg]
      constructor
      · rintro (hp | ⟨x, hx, hgx, hrx⟩)
        · exact Or.inl hp
        · exact Or.inr ⟨x, List.mem_cons_of_mem y hx, hgx, hrx⟩
      · rintro (hp | ⟨x, hx, hgx, hrx⟩)
        · exact Or.inl hp
        · rcases List.mem_cons.mp hx with rfl | hxt
          · exact absurd hgx hg
          · exact Or.inr ⟨x, hxt, hgx, hrx⟩

/-- C9: each symmetry pass reads only from the snapshot taken at its
start: after a diagonal or axial pass, a point is stored exactly when it
was in the snapshot or is the guarded reflection of a snapshot entry; in
particular a point first inserted during a pass is never itself reflected
within that same pass. -/
theorem c9_passes_read_snapshot :
    ∀ (dim d : Nat) (s : Store) (p : Point),
      (pmem (diagPass dim d s) p = true ↔
        pmem s p = true ∨
          ∃ x, x ∈ s ∧
            (x.1.getD d 0 != x.1.getD ((d + 1) % dim) 0) = true ∧
            swapAxes x.1 d ((d + 1) % dim) = p) ∧
        (pmem (axialPass d s) p = true ↔
          pmem s p = true ∨
            ∃ x, x ∈ s ∧ (x.1.getD d 0 != 0) = true ∧
              x.1.set d (-(x.1.getD d 0)) = p) := by
  intro dim d s p
  exact ⟨pmem_reflect_foldl _ _ s s p, pmem_reflect_foldl _ _ s s p⟩

/-- C8 amended: a zero dimension and an empty layers list are refused at
construction time (the asserts fire, no instance is produced, for every
resolution of the out-of-bounds read), but a non-monotonic layers list is
not checked: construction proceeds and produces an instance. -/
theorem c8_assertion_checks :
    (∀ (g : Int) (layers : List Int), hypersphere g 0 layers = none) ∧
      (∀ (g : Int) (dim : Nat), hypersphere g dim [] = none) ∧
      (hypersphere 0 1 [1, 3]).isSome = true := by
  refine ⟨fun g layers => by simp [hypersphere], fun g dim => ?_, rfl⟩
  cases dim with
  | zero => simp [hypersphere]
  | succ n => simp [hypersphere, octant]

/-- Auxiliary: head with default of a non-empty list is its entry 0. -/
theorem headD_eq_getD_zero (l : List Int) (h : l ≠ []) :
    l.headD 0 = l.getD 0 0 := by
  cases l with
  | nil => exact absurd rfl h
  | cons x xs => rfl

/-- Auxiliary: setting entry 0 sets the head. -/
theorem headD_set_zero (l : List Int) (x : Int) (h : l ≠ []) :
    (l.set 0 x).headD 0 = x := by
  cases l with
  | nil => exact absurd rfl h
  | cons y ys => rfl

/-- Auxiliary: setting a later entry keeps the head. -/
theorem headD_set_succ (l : List Int) (k : Nat) (x : Int) :
    (l.set (k + 1) x).headD 0 = l.headD 0 := by
  cases l with
  | nil => rfl
  | cons y ys => rfl

/-- Auxiliary: a non-trivial prefix keeps the head. -/
theorem headD_take (l : List Int) (k : Nat) (h : 0 < k) :
    (l.take k).headD 0 = l.headD 0 := by
  cases l with
  | nil => simp
  | cons y ys =>
    cases k with
    | zero => exact absurd h (by omega)
    | succ m => rfl

/-- Auxiliary: the update loop never increases the first radius (or it
empties the radii vector). -/
theorem updGo_fst_head (dd : Int) :
    ∀ (fuel : Nat) (radii criteria : List Int) (i : Nat),
      (updGo dd fuel radii criteria i).1 = [] ∨
        (updGo dd fuel radii criteria i).1.headD 0 ≤ radii.headD 0 := by
  intro fuel
  induction fuel with
  | zero => exact fun radii criteria i => Or.inr (le_refl _)
  | succ f ih =>
    intro radii criteria i
    rw [updGo]
    by_cases hi : i < radii.length
    · rw [if_pos hi]
      by_cases hd : radii.getD i 0 - dd ≤ 0
      · rw [if_pos hd]
        by_cases hc : 0 < i ∧ radii.getD i 0 + 1 ≤ radii.getD (i - 1) 0
        · rw [if_pos hc]
          right
          obtain ⟨hi0, -⟩ := hc
          obtain ⟨k, rfl⟩ := Nat.exists_eq_succ_of_ne_zero (by omega : i ≠ 0)
          by_cases hne : radii.getD (k + 1) 0 - dd ≠ 0
          · rw [if_pos hne, headD_take _ _ (by omega),
              headD_set_succ]
          · rw [if_neg hne, headD_take _ _ (by omega)]
        · rw [if_neg hc]
          cases i with
          | zero => exact Or.inl rfl
          | succ k => exact Or.inr (le_of_eq (headD_take _ _ (by omega)))
      · rw [if_neg hd]
        have hne : radii ≠ [] := by
          cases radii
          · simp at hi
          · simp
        by_cases hcrit : criteria.getD i 0 > 0
        · rw [if_pos hcrit]
          rcases ih (radii.set i (radii.getD i 0 - 1))
              (criteria.set i
                (criteria.getD i 0 + 4 * (dd - (radii.getD i 0 - 1)) + 1))
              (i + 1) with hl | hr
          · exact Or.inl hl
          · right
            refine le_trans hr ?_
            cases i with
            | zero =>
              rw [headD_set_zero _ _ hne, headD_eq_getD_zero _ hne]
              omega
            | succ k => rw [headD_set_succ]
        · rw [if_neg hcrit]
          rcases ih radii (criteria.set i (criteria.getD i 0 + 4 * dd + 1))
              (i + 1) with hl | hr
          · exact Or.inl hl
          · exact Or.inr hr
    · rw [if_neg hi]
      exact Or.inr (le_refl _)

/-- Auxiliary: the update loop never increases the first radius. -/
theorem updLoop_fst_head (dd : Int) (radii criteria : List Int) :
    (updLoop dd radii criteria).1 = [] ∨
      (updLoop dd radii criteria).1.headD 0 ≤ radii.headD 0 :=
  updGo_fst_head dd radii.length radii criteria 0

/-- Auxiliary: once the first radius is at most the offset, the update
loop empties the radii vector, ending the slicing loop. -/
theorem updLoop_fst_empty (dd : Int) (radii criteria : List Int)
    (h0 : radii ≠ []) (h : radii.headD 0 ≤ dd) :
    (updLoop dd radii criteria).1 = [] := by
  cases radii with
  | nil => exact absurd rfl h0
  | cons x xs =>
    have hx : x - dd ≤ 0 := by
      have : (x :: xs).headD 0 = x := rfl
      omega
    rw [updLoop]
    simp only [List.length_cons]
    rw [updGo, if_pos (by simp : 0 < (x :: xs).length)]
    rw [if_pos (by simpa using hx)]
    rw [if_neg (by simp)]
    rfl

/-- Auxiliary: the slicing loop succeeds whenever its fuel dominates the
remaining offsets (the first radius never increases while the offset grows
by one per iteration, so radii empties before the fuel runs out). -/
theorem sliceLoop_isSome
    (rec : Point → List Int → Nat → Store → Option Store)
    (centre : Point) (d : Nat)
    (hrec : ∀ (sc : Point) (L : List Int) (s' : Store),
      sc.length = centre.length → L ≠ [] →
      (rec sc L (d + 1) s').isSome = true) :
    ∀ (fuel : Nat) (dd : Int) (radii criteria : List Int) (s : Store),
      (radii = [] → 1 ≤ fuel) →
      (radii ≠ [] →
        2 ≤ fuel ∧ (radii.headD 0 + 2 - dd).toNat ≤ fuel) →
      (sliceLoop rec centre d fuel dd radii criteria s).isSome = true := by
  intro fuel
  induction fuel with
  | zero =>
    intro dd radii criteria s h1 h2
    cases radii with
    | nil => exact absurd (h1 rfl) (by omega)
    | cons x xs => exact absurd (h2 (List.cons_ne_nil x xs)).1 (by omega)
  | succ f ih =>
    intro dd radii criteria s h1 h2
    rw [sliceLoop]
    by_cases he : radii.isEmpty = true
    · rw [if_pos he]
      rfl
    · rw [if_neg he]
      have hne : radii ≠ [] := by
        cases radii
        · simp at he
        · simp
      have hrc := hrec (centre.set d (centre.getD d 0 + dd)) radii s
        (List.length_set centre d _) hne
      cases hmatch : rec (centre.set d (centre.getD d 0 + dd)) radii (d + 1) s
        with
      | none => rw [hmatch] at hrc; cases hrc
      | some s2 =>
        have hbound := (h2 hne).2
        have hf2 := (h2 hne).1
        show (sliceLoop rec centre d f (dd + 1)
            (updLoop (dd + 1) radii criteria).1
            (updLoop (dd + 1) radii criteria).2 s2).isSome = true
        apply ih
        · intro hrc1
          omega
        · intro hrc1
          have hgt : ¬ radii.headD 0 ≤ dd + 1 := fun hle =>
            hrc1 (updLoop_fst_empty (dd + 1) radii criteria hne hle)
          rcases updLoop_fst_head (dd + 1) radii criteria with hl | hr
          · exact absurd hl hrc1
          · constructor
            · omega
            · omega

/-- Auxiliary: octant succeeds for every non-empty layers list when called
with its actual fuel n = centre.length - d (the recursion depth left). -/
theorem octant_isSome (g : Int) :
    ∀ (n : Nat) (centre : Point) (layers : List Int) (d : Nat) (s : Store),
      centre.length = d + n → d < centre.length → layers ≠ [] →
      (octant g n centre layers d s).isSome = true := by
  intro n
  induction n with
  | zero =>
    intro centre layers d s hlen hd _
    omega
  | succ n ih =>
    intro centre layers d s hlen hd hne
    rw [octant]
    rw [if_pos ⟨hd, List.length_pos.mpr hne⟩]
    by_cases hbase : centre.length - 1 = d
    · rw [if_pos hbase]
      rfl
    · rw [if_neg hbase]
      apply sliceLoop_isSome
      · intro sc L s' hsc hLne
        exact ih sc L (d + 1) s' (by omega) (by omega) hLne
      · intro _
        omega
      · intro _
        constructor
        · omega
        · omega

/-- C10: for every dimension at least 1 and every non-empty layers list
(in particular every non-increasing list of non-negative radii), the
embedded construction terminates successfully: the octant recursion and
the fueled slicing loop never exhaust their bounds, for every resolution
of the out-of-bounds read, so the constructor produces a store after
finitely many insertions. -/
theorem c10_construction_total :
    ∀ (g : Int) (dim : Nat) (layers : List Int),
      0 < dim → layers ≠ [] → (hypersphere g dim layers).isSome = true := by
  intro g dim layers hdim hne
  have h := octant_isSome g dim (List.replicate dim 0) layers 0 []
    (by simp) (by simpa using hdim) hne
  cases hoct : octant g dim (List.replicate dim 0) layers 0 [] with
  | none => rw [hoct] at h; cases h
  | some s =>
    rw [hypersphere, if_pos hdim, hoct]
    rfl

/-- C10 witness: the theorem applied at the concrete input of dimension 2
with layers [5], discharging both hypotheses there. -/
theorem c10_construction_total_witness :
    0 < 2 ∧ ([5] : List Int) ≠ [] ∧ (hypersphere 0 2 [5]).isSome = true :=
  ⟨by decide, by decide, c10_construction_total 0 2 [5] (by decide) (by decide)⟩

/-- Auxiliary: in-bounds getD does not depend on the default. -/
theorem getD_in_bounds :
    ∀ (l : List Int) (i : Nat) (a b : Int), i < l.length →
      l.getD i a = l.getD i b := by
  intro l
  induction l with
  | nil => intro i a b h; simp at h
  | cons x xs ih =>
    intro i a b h
    cases i with
    | zero => rfl
    | succ k =>
      have : k < xs.length := by simpa using h
      simpa using ih k a b this

/-- Auxiliary: the default of getLastD is irrelevant for non-empty lists. -/
theorem getLastD_ne_nil (l : List Int) (a b : Int) (h : l ≠ []) :
    l.getLastD a = l.getLastD b := by
  rw [List.getLastD_eq_getLast?, List.getLastD_eq_getLast?,
    List.getLast?_eq_getLast l h]
  rfl

/-- Auxiliary: the last entry by index is getLastD. -/
theorem getD_last_eq :
    ∀ (l : List Int), l ≠ [] → l.getD (l.length - 1) 0 = l.getLastD 0
  | [], h => absurd rfl h
  | [x], _ => rfl
  | x :: y :: ys, _ => by
    have ih := getD_last_eq (y :: ys) (List.cons_ne_nil y ys)
    have h1 : (x :: y :: ys).length - 1 = ((y :: ys).length - 1) + 1 := by
      simp
    have h2 : (x :: y :: ys).getD ((y :: ys).length - 1 + 1) 0 =
        (y :: ys).getD ((y :: ys).length - 1) 0 := by
      simp [List.getD]
    rw [h1, h2, ih, List.getLastD_cons 0 x (y :: ys)]
    exact getLastD_ne_nil (y :: ys) 0 x (List.cons_ne_nil y ys)

/-- Auxiliary: in a non-increasing list every entry dominates the last. -/
theorem pairwise_ge_last :
    ∀ (l : List Int), List.Pairwise (· ≥ ·) l →
      ∀ i, i < l.length → l.getD i 0 ≥ l.getLastD 0
  | [], _, i, h => by simp at h
  | [x], _, i, h => by
    have : i = 0 := by simpa using h
    subst this
    exact le_refl x
  | x :: y :: ys, hpw, i, h => by
    obtain ⟨hhead, htail⟩ := List.pairwise_cons.mp hpw
    have hcne : (y :: ys) ≠ [] := List.cons_ne_nil y ys
    cases i with
    | zero =>
      show x ≥ (x :: y :: ys).getLastD 0
      rw [List.getLastD_cons, getLastD_ne_nil (y :: ys) x 0 hcne]
      have hmem : (y :: ys).getLast hcne ∈ y :: ys := List.getLast_mem hcne
      have hx : x ≥ (y :: ys).getLast hcne := hhead _ hmem
      rwa [List.getLastD_eq_getLast?, List.getLast?_eq_getLast _ hcne]
    | succ k =>
      have hk : k < (y :: ys).length := by simpa using h
      have hstep : (x :: y :: ys).getD (k + 1) 0 = (y :: ys).getD k 0 := by
        simp [List.getD]
      rw [hstep, List.getLastD_cons, getLastD_ne_nil (y :: ys) x 0 hcne]
      exact pairwise_ge_last (y :: ys) htail k hk

/-- Auxiliary: the layer-advance loop never decreases the layer. -/
theorem advGo_ge (g : Int) (layers : List Int) (radius : Int) :
    ∀ (rem layer : Nat), layer ≤ advLayerGo g layers radius rem layer := by
  intro rem
  induction rem with
  | zero => intro layer; exact le_refl layer
  | succ r ih =>
    intro layer
    rw [advLayerGo]
    by_cases h1 : layer < layers.length
    · rw [if_pos h1]
      by_cases h2 : radius ≤ layers.getD (layer + 1) g
      · rw [if_pos h2]
        exact le_trans (Nat.le_succ layer) (ih (layer + 1))
      · rw [if_neg h2]
    · rw [if_neg h1]

/-- Auxiliary: while the radius is still above the innermost one, the
layer-advance loop cannot reach the last layer index. -/
theorem advGo_ub (g : Int) (layers : List Int) (radius : Int)
    (hrad : radius > layers.getLastD 0) :
    ∀ (rem layer : Nat), layer + 1 < layers.length →
      advLayerGo g layers radius rem layer + 1 < layers.length := by
  intro rem
  induction rem with
  | zero => intro layer h; exact h
  | succ r ih =>
    intro layer h
    rw [advLayerGo, if_pos (by omega : layer < layers.length)]
    by_cases h2 : radius ≤ layers.getD (layer + 1) g
    · rw [if_pos h2]
      apply ih
      by_cases h3 : layer + 1 + 1 < layers.length
      · exact h3
      · exfalso
        have hlast : layer + 1 = layers.length - 1 := by omega
        rw [hlast, getD_in_bounds layers (layers.length - 1) g 0 (by omega),
          getD_last_eq layers (by intro hc; rw [hc] at h; simp at h)] at h2
        omega
    · rw [if_neg h2]
      exact h

/-- Auxiliary: once the radius has reached the innermost one, the
layer-advance loop (for a non-increasing layers list, with enough fuel)
advances to the last layer index or past it. -/
theorem advGo_final (g : Int) (layers : List Int) (radius : Int)
    (hpw : List.Pairwise (· ≥ ·) layers)
    (hrad : radius ≤ layers.getLastD 0) :
    ∀ (rem layer : Nat), layer < layers.length →
      layers.length ≤ layer + rem →
      layers.length - 1 ≤ advLayerGo g layers radius rem layer := by
  intro rem
  induction rem with
  | zero => intro layer h1 h2; omega
  | succ r ih =>
    intro layer h1 h2
    rw [advLayerGo, if_pos h1]
    by_cases hl : layer + 1 < layers.length
    · have hcond : radius ≤ layers.getD (layer + 1) g := by
        rw [getD_in_bounds layers (layer + 1) g 0 hl]
        have := pairwise_ge_last layers hpw (layer + 1) hl
        omega
      rw [if_pos hcond]
      exact ih (layer + 1) hl (by omega)
    · have hlay : layer = layers.length - 1 := by omega
      by_cases h2c : radius ≤ layers.getD (layer + 1) g
      · rw [if_pos h2c]
        calc layers.length - 1 ≤ layer + 1 := by omega
          _ ≤ advLayerGo g layers radius r (layer + 1) := advGo_ge g layers radius r (layer + 1)
      · rw [if_neg h2c]
        omega

/-- Auxiliary: the payloads emitted by one base-case slice are
non-decreasing along the fill direction (outermost coordinate inward),
given a non-increasing layers list. -/
theorem base1dGo_chain (g : Int) (layers : List Int) (d : Nat)
    (hpw : List.Pairwise (· ≥ ·) layers) (_hne : layers ≠ []) :
    ∀ (fuel : Nat) (pt : Point) (radius : Int) (layer : Nat),
      fuel = (radius - layers.getLastD 0).toNat →
      (layer + 1 < layers.length ∨ radius ≤ layers.getLastD 0) →
      List.Chain' (fun a b => a.2 ≤ b.2)
        (base1dGo g layers d fuel pt radius layer) := by
  intro fuel
  induction fuel with
  | zero =>
    intro pt radius layer _ _
    rw [base1dGo]
    exact List.chain'_singleton _
  | succ f ih =>
    intro pt radius layer hfuel hH
    have hrad : radius > layers.getLastD 0 := by omega
    have hlay : layer + 1 < layers.length := by
      rcases hH with h | h
      · exact h
      · omega
    rw [base1dGo, if_pos hrad, List.chain'_cons']
    constructor
    · intro b hb
      cases f with
      | zero =>
        rw [base1dGo] at hb
        simp only [List.head?_cons, Option.mem_def, Option.some.injEq] at hb
        have hr1 : radius - 1 ≤ layers.getLastD 0 := by omega
        have hfin : layers.length - 1 ≤
            advLayer g layers (radius - 1) layer := by
          simp only [advLayer]
          exact advGo_final g layers (radius - 1) hpw hr1 _ layer
            (by omega) (by omega)
        rw [← hb]
        simp only []
        omega
      | succ f2 =>
        have hrad2 : radius - 1 > layers.getLastD 0 := by omega
        rw [base1dGo, if_pos hrad2] at hb
        simp only [List.head?_cons, Option.mem_def, Option.some.injEq] at hb
        rw [← hb]
        simp only [advLayer]
        exact advGo_ge g layers (radius - 1) _ layer
    · apply ih
      · omega
      · cases f with
        | zero => exact Or.inr (by omega)
        | succ f2 =>
          left
          simp only [advLayer]
          exact advGo_ub g layers (radius - 1) (by omega) _ layer hlay

/-- C7 amended: the claimed monotonicity holds slice-locally but not
globally: within the list of points emitted by any single base-case call
(the 1-D fill of one slice, for a non-increasing layers list), the payload
is non-decreasing from the outermost emitted point inward; across
different slices the counterexample above shows the global claim fails. -/
theorem c7_slice_payload_monotone :
    ∀ (g : Int) (centre : Point) (layers : List Int) (d : Nat),
      List.Pairwise (· ≥ ·) layers → layers ≠ [] →
      List.Chain' (fun a b => a.2 ≤ b.2) (base1dEmit g centre layers d) := by
  intro g centre layers d hpw hne
  dsimp only [base1dEmit]
  apply base1dGo_chain g layers d hpw hne _ _ _ _ rfl
  cases layers with
  | nil => exact absurd rfl hne
  | cons x xs =>
    cases xs with
    | nil => exact Or.inr (le_refl _)
    | cons y ys =>
      left
      simp

/-- C7 amended witness: the slice monotonicity applied to the concrete
base-case run with layers [3, 0] (oracle 0), both hypotheses discharged
concretely. -/
theorem c7_slice_payload_monotone_witness :
    List.Pairwise (· ≥ ·) ([3, 0] : List Int) ∧
      List.Chain' (fun a b => a.2 ≤ b.2) (base1dEmit 0 [0] [3, 0] 0) :=
  ⟨by decide, c7_slice_payload_monotone 0 [0] [3, 0] 0 (by decide) (by decide)⟩

set_option maxRecDepth 100000 in
/-- C7 counterexample: in the dimension 2, layers [12, 12, 11] construction
the point (7, 9) is stored with payload 1 and the point (3, 11) with
payload 0, although both have squared Euclidean norm 130; with equal
norms, the claimed implication forces equal payloads, which fails.  (The
payloads of these two points do not depend on the out-of-bounds read;
oracle 0 is used.) -/
theorem c7_monotonicity_fails :
    (hypersphere 0 2 [12, 12, 11]).map
        (fun s => (lookup s [7, 9], lookup s [3, 11])) =
      some (some 1, some 0) ∧
      (7 * 7 + 9 * 9 : Int) ≥ 3 * 3 + 11 * 11 := by
  constructor
  · rfl
  · decide

end Libaccl
